import Mathlib

/-!
Verification of the missile-guidance helper library.

The library is generic over a real field; we embed it over `ℝ`. Vectors are
concrete 3-component records mirroring `na::Vector3`, with the dot product,
cross product, squared norm, Euclidean norm, componentwise scalar division
(`v / c`), and `Unit::new_normalize` (division by the norm) taken from the
vector-algebra collaborator as the source uses them.

`linear_aim` in the source can terminate three ways: return `Some`, return
`None` (via the `?` on `try_sqrt`), or panic (the `.min_by(..).unwrap()` when
the filtered root list is empty). We embed its result as
`Except Unit (Option _)`: `Except.error ()` models the panic, `Except.ok none`
the `None` return, `Except.ok (some _)` the `Some` return. `linear_steer`
propagates all three outcomes unchanged (`?` forwards `None`, and a panic in a
callee unwinds through the caller).
-/

noncomputable section

/-- Three-dimensional real vector, mirroring `na::Vector3<N>`. -/
structure Vec3 where
  x : ℝ
  y : ℝ
  z : ℝ

namespace Vec3

/-- Dot product, `a.dot(&b)`. -/
def dot (a b : Vec3) : ℝ := a.x * b.x + a.y * b.y + a.z * b.z

/-- Cross product, `a.cross(&b)`. -/
def cross (a b : Vec3) : Vec3 :=
  ⟨a.y * b.z - a.z * b.y, a.z * b.x - a.x * b.z, a.x * b.y - a.y * b.x⟩

/-- Squared Euclidean norm, `v.norm_squared()`. -/
def norm_squared (v : Vec3) : ℝ := v.dot v

/-- Euclidean norm, `v.norm()`. -/
def norm (v : Vec3) : ℝ := Real.sqrt v.norm_squared

/-- Componentwise division of a vector by a scalar, `v / c`. -/
def sdiv (v : Vec3) (c : ℝ) : Vec3 := ⟨v.x / c, v.y / c, v.z / c⟩

instance : Add Vec3 := ⟨fun a b => ⟨a.x + b.x, a.y + b.y, a.z + b.z⟩⟩

instance : Sub Vec3 := ⟨fun a b => ⟨a.x - b.x, a.y - b.y, a.z - b.z⟩⟩

instance : SMul ℝ Vec3 := ⟨fun c v => ⟨c * v.x, c * v.y, c * v.z⟩⟩

instance : Zero Vec3 := ⟨⟨0, 0, 0⟩⟩

/-- Normalization, `na::Unit::new_normalize(v)`: the vector divided by its
Euclidean norm. -/
def new_normalize (v : Vec3) : Vec3 := v.sdiv v.norm

end Vec3

/-- Fallible square root, `RealField::try_sqrt`: `None` on negative input. -/
def try_sqrt (x : ℝ) : Option ℝ :=
  if x < 0 then none else some (Real.sqrt x)

/-- Relative position and velocity of the target, `struct Target<N>`. -/
structure Target where
  position : Vec3
  velocity : Vec3

/-- Whether the target is currently approaching the origin:
`self.position.dot(&self.velocity) < na::zero()`. -/
def Target.is_closing (t : Target) : Bool :=
  decide (t.position.dot t.velocity < 0)

/-- Quadratic leading coefficient in `linear_aim`:
`a = target.velocity.norm_squared() - speed * speed`. -/
def aim_a (target : Target) (speed : ℝ) : ℝ :=
  target.velocity.norm_squared - speed * speed

/-- Quadratic linear coefficient in `linear_aim`:
`b = 2 * target.position.dot(&target.velocity)`. -/
def aim_b (target : Target) : ℝ :=
  2 * target.position.dot target.velocity

/-- Quadratic constant coefficient in `linear_aim`:
`c = target.position.norm_squared()`. -/
def aim_c (target : Target) : ℝ :=
  target.position.norm_squared

/-- Discriminant of the intercept quadratic, `b * b - 4 * a * c`. -/
def aim_disc (target : Target) (speed : ℝ) : ℝ :=
  aim_b target * aim_b target - 4 * aim_a target speed * aim_c target

/-- First quadratic root as the source computes it: `(-b + rt) / (2 * a)`. -/
def aim_t0 (target : Target) (speed : ℝ) : ℝ :=
  (-aim_b target + Real.sqrt (aim_disc target speed)) / (2 * aim_a target speed)

/-- Second quadratic root as the source computes it: `(-b - rt) / (2 * a)`. -/
def aim_t1 (target : Target) (speed : ℝ) : ℝ :=
  (-aim_b target - Real.sqrt (aim_disc target speed)) / (2 * aim_a target speed)

/-- Root selection in `linear_aim`:
`[t0, t1].iter().filter(|&x| x >= 0).min_by(..)`. Over `ℝ` the partial order
is total, so `min_by` of the kept candidates is their minimum; an empty
candidate list yields `none`, on which the source calls `.unwrap()`. -/
def selectRoot (t0 t1 : ℝ) : Option ℝ :=
  if 0 ≤ t0 then
    if 0 ≤ t1 then some (min t0 t1) else some t0
  else
    if 0 ≤ t1 then some t1 else none

/-- Direction to aim a projectile travelling at `speed` to hit `target`, and
the time of impact. `Except.error ()` models the `.unwrap()` panic when no
root is non-negative. -/
def linear_aim (target : Target) (speed : ℝ) : Except Unit (Option (Vec3 × ℝ)) :=
  if |aim_a target speed| < 1e-3 then
    Except.ok (some (Vec3.new_normalize target.position, 0))
  else
    match try_sqrt (aim_disc target speed) with
    | none => Except.ok none
    | some rt =>
      let t0 := (-aim_b target + rt) / (2 * aim_a target speed)
      let t1 := (-aim_b target - rt) / (2 * aim_a target speed)
      match selectRoot t0 t1 with
      | none => Except.error ()
      | some t =>
        Except.ok (some (Vec3.new_normalize (target.position + t • target.velocity), t))

/-- Ideal Proportional Navigation: desired instantaneous acceleration.
`w_s = position × velocity / |position|²`; result
`(velocity * navigation_constant) × w_s`. The source's `debug_assert!` that
the target is closing compiles away in release builds and is not modelled. -/
def ipn (navigation_constant : ℝ) (target : Target) : Vec3 :=
  let w_s := (target.position.cross target.velocity).sdiv target.position.norm_squared
  (navigation_constant • target.velocity).cross w_s

/-- Change in velocity to steer an in-flight projectile towards `target`. -/
def linear_steer (target : Target) (current_velocity : Vec3) (average_speed : ℝ) :
    Except Unit (Option (Vec3 × ℝ)) :=
  let target' : Target :=
    { position := target.position, velocity := target.velocity + current_velocity }
  let current_speed := current_velocity.norm
  match linear_aim target' average_speed with
  | Except.error e => Except.error e
  | Except.ok none => Except.ok none
  | Except.ok (some (dir, t)) =>
      Except.ok (some (current_speed • dir - current_velocity, t))

end

/-! Componentwise lemmas for the vector operations. -/

theorem Vec3.ext_components {a b : Vec3} (hx : a.x = b.x) (hy : a.y = b.y)
    (hz : a.z = b.z) : a = b := by
  cases a
  cases b
  simp_all

@[simp] theorem Vec3.add_x (a b : Vec3) : (a + b).x = a.x + b.x := rfl

@[simp] theorem Vec3.add_y (a b : Vec3) : (a + b).y = a.y + b.y := rfl

@[simp] theorem Vec3.add_z (a b : Vec3) : (a + b).z = a.z + b.z := rfl

@[simp] theorem Vec3.sub_x (a b : Vec3) : (a - b).x = a.x - b.x := rfl

@[simp] theorem Vec3.sub_y (a b : Vec3) : (a - b).y = a.y - b.y := rfl

@[simp] theorem Vec3.sub_z (a b : Vec3) : (a - b).z = a.z - b.z := rfl

@[simp] theorem Vec3.smul_x (c : ℝ) (v : Vec3) : (c • v).x = c * v.x := rfl

@[simp] theorem Vec3.smul_y (c : ℝ) (v : Vec3) : (c • v).y = c * v.y := rfl

@[simp] theorem Vec3.smul_z (c : ℝ) (v : Vec3) : (c • v).z = c * v.z := rfl

@[simp] theorem Vec3.zero_x : (0 : Vec3).x = 0 := rfl

@[simp] theorem Vec3.zero_y : (0 : Vec3).y = 0 := rfl

@[simp] theorem Vec3.zero_z : (0 : Vec3).z = 0 := rfl

/-! Basic norm facts. -/

theorem Vec3.norm_squared_nonneg (v : Vec3) : 0 ≤ v.norm_squared := by
  simp only [Vec3.norm_squared, Vec3.dot]
  nlinarith [mul_self_nonneg v.x, mul_self_nonneg v.y, mul_self_nonneg v.z]

theorem Vec3.norm_squared_eq_zero_iff (v : Vec3) : v.norm_squared = 0 ↔ v = 0 := by
  constructor
  · intro h
    simp only [Vec3.norm_squared, Vec3.dot] at h
    have hx : v.x * v.x = 0 := by nlinarith [mul_self_nonneg v.y, mul_self_nonneg v.z]
    have hy : v.y * v.y = 0 := by nlinarith [mul_self_nonneg v.x, mul_self_nonneg v.z]
    have hz : v.z * v.z = 0 := by nlinarith [mul_self_nonneg v.x, mul_self_nonneg v.y]
    exact Vec3.ext_components (mul_self_eq_zero.mp hx) (mul_self_eq_zero.mp hy)
      (mul_self_eq_zero.mp hz)
  · intro h
    subst h
    simp [Vec3.norm_squared, Vec3.dot]

theorem Vec3.norm_squared_pos (v : Vec3) (h : v ≠ 0) : 0 < v.norm_squared :=
  lt_of_le_of_ne (Vec3.norm_squared_nonneg v)
    (fun h0 => h ((Vec3.norm_squared_eq_zero_iff v).mp h0.symm))

theorem Vec3.norm_nonneg (v : Vec3) : 0 ≤ v.norm := Real.sqrt_nonneg _

theorem Vec3.norm_eq_zero_iff (v : Vec3) : v.norm = 0 ↔ v = 0 := by
  rw [Vec3.norm, Real.sqrt_eq_zero (Vec3.norm_squared_nonneg v)]
  exact Vec3.norm_squared_eq_zero_iff v

theorem Vec3.norm_pos (v : Vec3) (h : v ≠ 0) : 0 < v.norm := by
  rw [Vec3.norm]
  exact Real.sqrt_pos.mpr (Vec3.norm_squared_pos v h)

theorem Vec3.sq_norm (v : Vec3) : v.norm ^ 2 = v.norm_squared :=
  Real.sq_sqrt (Vec3.norm_squared_nonneg v)

theorem Vec3.norm_smul (c : ℝ) (v : Vec3) : (c • v).norm = |c| * v.norm := by
  have h : (c • v).norm_squared = c ^ 2 * v.norm_squared := by
    simp only [Vec3.norm_squared, Vec3.dot, Vec3.smul_x, Vec3.smul_y, Vec3.smul_z]
    ring
  rw [Vec3.norm, h, Real.sqrt_mul (sq_nonneg c), Real.sqrt_sq_eq_abs, Vec3.norm]

theorem Vec3.norm_new_normalize (v : Vec3) (h : v ≠ 0) : v.new_normalize.norm = 1 := by
  have hn : 0 < v.norm := Vec3.norm_pos v h
  have hq : (v.new_normalize).norm_squared = 1 := by
    simp only [Vec3.new_normalize, Vec3.sdiv, Vec3.norm_squared, Vec3.dot]
    have h2 : v.norm * v.norm = v.norm_squared := by
      have := Vec3.sq_norm v
      nlinarith [this]
    field_simp
    simp only [Vec3.norm_squared, Vec3.dot] at h2
    linarith [h2]
  rw [Vec3.norm, hq, Real.sqrt_one]

theorem Vec3.norm_smul_new_normalize (v : Vec3) (h : v ≠ 0) :
    v.norm • v.new_normalize = v := by
  have hn : v.norm ≠ 0 := ne_of_gt (Vec3.norm_pos v h)
  apply Vec3.ext_components <;>
    simp only [Vec3.new_normalize, Vec3.sdiv, Vec3.smul_x, Vec3.smul_y, Vec3.smul_z] <;>
    field_simp

/-! Behaviour of `linear_aim` branch by branch. -/

theorem aim_t0_def (target : Target) (speed : ℝ) :
    aim_t0 target speed =
      (-aim_b target + Real.sqrt (aim_disc target speed)) / (2 * aim_a target speed) := rfl

theorem aim_t1_def (target : Target) (speed : ℝ) :
    aim_t1 target speed =
      (-aim_b target - Real.sqrt (aim_disc target speed)) / (2 * aim_a target speed) := rfl

theorem aim_a_ne_zero {target : Target} {speed : ℝ}
    (hdeg : ¬ |aim_a target speed| < 1e-3) : aim_a target speed ≠ 0 := by
  intro h0
  apply hdeg
  rw [h0, abs_zero]
  norm_num

theorem linear_aim_of_deg (target : Target) (speed : ℝ)
    (hdeg : |aim_a target speed| < 1e-3) :
    linear_aim target speed = Except.ok (some (Vec3.new_normalize target.position, 0)) := by
  rw [linear_aim, if_pos hdeg]

theorem linear_aim_of_neg_disc (target : Target) (speed : ℝ)
    (hdeg : ¬ |aim_a target speed| < 1e-3) (hdisc : aim_disc target speed < 0) :
    linear_aim target speed = Except.ok none := by
  rw [linear_aim, if_neg hdeg, try_sqrt, if_pos hdisc]

theorem linear_aim_of_select_none (target : Target) (speed : ℝ)
    (hdeg : ¬ |aim_a target speed| < 1e-3) (hdisc : 0 ≤ aim_disc target speed)
    (hsel : selectRoot (aim_t0 target speed) (aim_t1 target speed) = none) :
    linear_aim target speed = Except.error () := by
  rw [linear_aim, if_neg hdeg, try_sqrt, if_neg (not_lt.mpr hdisc)]
  show (match selectRoot (aim_t0 target speed) (aim_t1 target speed) with
    | none => Except.error ()
    | some t =>
        Except.ok (some (Vec3.new_normalize (target.position + t • target.velocity), t))) = _
  rw [hsel]

theorem linear_aim_of_select_some (target : Target) (speed τ : ℝ)
    (hdeg : ¬ |aim_a target speed| < 1e-3) (hdisc : 0 ≤ aim_disc target speed)
    (hsel : selectRoot (aim_t0 target speed) (aim_t1 target speed) = some τ) :
    linear_aim target speed =
      Except.ok (some (Vec3.new_normalize (target.position + τ • target.velocity), τ)) := by
  rw [linear_aim, if_neg hdeg, try_sqrt, if_neg (not_lt.mpr hdisc)]
  show (match selectRoot (aim_t0 target speed) (aim_t1 target speed) with
    | none => Except.error ()
    | some t =>
        Except.ok (some (Vec3.new_normalize (target.position + t • target.velocity), t))) = _
  rw [hsel]

theorem linear_aim_ok_some_cases {target : Target} {speed : ℝ} {d : Vec3} {τ : ℝ}
    (h : linear_aim target speed = Except.ok (some (d, τ))) :
    (|aim_a target speed| < 1e-3 ∧ d = Vec3.new_normalize target.position ∧ τ = 0) ∨
    (¬ |aim_a target speed| < 1e-3 ∧ 0 ≤ aim_disc target speed ∧
      selectRoot (aim_t0 target speed) (aim_t1 target speed) = some τ ∧
      d = Vec3.new_normalize (target.position + τ • target.velocity)) := by
  by_cases hdeg : |aim_a target speed| < 1e-3
  · left
    rw [linear_aim_of_deg target speed hdeg] at h
    simp only [Except.ok.injEq, Option.some.injEq, Prod.mk.injEq] at h
    exact ⟨hdeg, h.1.symm, h.2.symm⟩
  · right
    by_cases hdisc : aim_disc target speed < 0
    · rw [linear_aim_of_neg_disc target speed hdeg hdisc] at h
      simp at h
    · replace hdisc := not_lt.mp hdisc
      cases hsel : selectRoot (aim_t0 target speed) (aim_t1 target speed) with
      | none =>
        rw [linear_aim_of_select_none target speed hdeg hdisc hsel] at h
        simp at h
      | some τ' =>
        rw [linear_aim_of_select_some target speed τ' hdeg hdisc hsel] at h
        simp only [Except.ok.injEq, Option.some.injEq, Prod.mk.injEq] at h
        obtain ⟨hd, ht⟩ := h
        rw [← ht]
        exact ⟨hdeg, hdisc, rfl, hd.symm⟩

/-! Facts about root selection and the intercept quadratic. -/

theorem selectRoot_some_cases {t0 t1 τ : ℝ} (h : selectRoot t0 t1 = some τ) :
    (τ = t0 ∨ τ = t1) ∧ 0 ≤ τ ∧ (0 ≤ t0 → τ ≤ t0) ∧ (0 ≤ t1 → τ ≤ t1) := by
  unfold selectRoot at h
  split_ifs at h with h0 h1 h1 <;>
    simp only [Option.some.injEq] at h <;> subst h
  · exact ⟨min_choice t0 t1, le_min h0 h1, fun _ => min_le_left t0 t1,
      fun _ => min_le_right t0 t1⟩
  · exact ⟨Or.inl rfl, h0, fun _ => le_refl t0, fun h1' => absurd h1' h1⟩
  · exact ⟨Or.inr rfl, h1, fun h0' => absurd h0' h0, fun _ => le_refl t1⟩

theorem selectRoot_eq_none {t0 t1 : ℝ} (h0 : t0 < 0) (h1 : t1 < 0) :
    selectRoot t0 t1 = none := by
  unfold selectRoot
  rw [if_neg (not_le.mpr h0), if_neg (not_le.mpr h1)]

theorem selectRoot_some_of_nonneg {t0 t1 : ℝ} (h : 0 ≤ t0 ∨ 0 ≤ t1) :
    ∃ τ, selectRoot t0 t1 = some τ := by
  unfold selectRoot
  split_ifs with h0 h1 h1
  · exact ⟨min t0 t1, rfl⟩
  · exact ⟨t0, rfl⟩
  · exact ⟨t1, rfl⟩
  · cases h with
    | inl h' => exact absurd h' h0
    | inr h' => exact absurd h' h1

theorem aim_quadratic_norm_squared (target : Target) (speed t : ℝ) :
    (target.position + t • target.velocity).norm_squared =
      (aim_a target speed * t ^ 2 + aim_b target * t + aim_c target) +
        speed ^ 2 * t ^ 2 := by
  simp only [Vec3.norm_squared, Vec3.dot, aim_a, aim_b, aim_c, Vec3.add_x, Vec3.add_y,
    Vec3.add_z, Vec3.smul_x, Vec3.smul_y, Vec3.smul_z]
  ring

theorem aim_root_iff (target : Target) (speed : ℝ)
    (ha : aim_a target speed ≠ 0) (hdisc : 0 ≤ aim_disc target speed) (u : ℝ) :
    aim_a target speed * u ^ 2 + aim_b target * u + aim_c target = 0 ↔
      u = aim_t0 target speed ∨ u = aim_t1 target speed := by
  have hd : discrim (aim_a target speed) (aim_b target) (aim_c target) =
      Real.sqrt (aim_disc target speed) * Real.sqrt (aim_disc target speed) := by
    rw [Real.mul_self_sqrt hdisc, discrim, aim_disc]
    ring
  rw [show aim_a target speed * u ^ 2 = aim_a target speed * (u * u) from by ring,
    aim_t0_def, aim_t1_def]
  exact quadratic_eq_zero_iff ha hd u

/-! Claim theorems. -/

/-- C4: `is_closing` returns true iff `position · velocity < 0`, and false iff
`position · velocity ≥ 0`; it is a total function of the target alone. -/
theorem is_closing_iff_dot_neg (t : Target) :
    (t.is_closing = true ↔ t.position.dot t.velocity < 0) ∧
    (t.is_closing = false ↔ 0 ≤ t.position.dot t.velocity) := by
  constructor
  · simp [Target.is_closing]
  · simp [Target.is_closing, not_lt]

/-- C3: for a closing target with nonzero position, the acceleration returned
by `ipn` is orthogonal to the target's relative velocity (exactly, over ℝ). -/
theorem ipn_orthogonal_to_velocity (n : ℝ) (target : Target)
    (hclose : target.position.dot target.velocity < 0)
    (hpos : target.position ≠ 0) :
    (ipn n target).dot target.velocity = 0 := by
  simp only [ipn, Vec3.cross, Vec3.dot, Vec3.sdiv, Vec3.smul_x, Vec3.smul_y, Vec3.smul_z]
  ring

/-- Witness for C3 at position (0,0,-10), velocity (0,0,1), gain 3. -/
theorem ipn_orthogonal_to_velocity_witness :
    (Vec3.dot ⟨0, 0, -10⟩ ⟨0, 0, 1⟩ < 0) ∧
    (ipn 3 ⟨⟨0, 0, -10⟩, ⟨0, 0, 1⟩⟩).dot ⟨0, 0, 1⟩ = 0 :=
  ⟨by norm_num [Vec3.dot],
   ipn_orthogonal_to_velocity 3 ⟨⟨0, 0, -10⟩, ⟨0, 0, 1⟩⟩ (by norm_num [Vec3.dot])
     (fun h => by have := congrArg Vec3.z h; norm_num at this)⟩

/-- C8: for a closing target with nonzero position, `ipn` equals the gain
times `velocity × w`, where `w = (position × velocity) / |position|²`. -/
theorem ipn_eq_gain_smul_cross (n : ℝ) (target : Target)
    (hclose : target.position.dot target.velocity < 0)
    (hpos : target.position ≠ 0) :
    ipn n target =
      n • (target.velocity.cross
        ((target.position.cross target.velocity).sdiv target.position.norm_squared)) := by
  apply Vec3.ext_components <;>
    simp only [ipn, Vec3.cross, Vec3.sdiv, Vec3.smul_x, Vec3.smul_y, Vec3.smul_z] <;>
    ring

/-- C6: when `|a|` is at least the tolerance and the discriminant is negative,
`linear_aim` returns the empty option (no real intercept). -/
theorem linear_aim_none_of_neg_disc (target : Target) (speed : ℝ)
    (hdeg : (1e-3 : ℝ) ≤ |aim_a target speed|) (hdisc : aim_disc target speed < 0) :
    linear_aim target speed = Except.ok none :=
  linear_aim_of_neg_disc target speed (not_lt.mpr hdeg) hdisc

/-- Witness for C6 at position (1,0,0), velocity (0,2,0), speed 1:
a = 3, discriminant = -12. -/
theorem linear_aim_none_of_neg_disc_witness :
    ((1e-3 : ℝ) ≤ |aim_a ⟨⟨1, 0, 0⟩, ⟨0, 2, 0⟩⟩ 1|) ∧
    aim_disc ⟨⟨1, 0, 0⟩, ⟨0, 2, 0⟩⟩ 1 < 0 ∧
    linear_aim ⟨⟨1, 0, 0⟩, ⟨0, 2, 0⟩⟩ 1 = Except.ok none :=
  ⟨by norm_num [aim_a, Vec3.norm_squared, Vec3.dot],
   by norm_num [aim_disc, aim_a, aim_b, aim_c, Vec3.norm_squared, Vec3.dot],
   linear_aim_none_of_neg_disc ⟨⟨1, 0, 0⟩, ⟨0, 2, 0⟩⟩ 1
     (by norm_num [aim_a, Vec3.norm_squared, Vec3.dot])
     (by norm_num [aim_disc, aim_a, aim_b, aim_c, Vec3.norm_squared, Vec3.dot])⟩

/-- C7: when the target's position is nonzero and `|a|` is below the 1e-3
tolerance, `linear_aim` returns the unit direction toward the current position
with time 0 — the defined near-equal-speed fallback. -/
theorem linear_aim_near_equal_speed_fallback (target : Target) (speed : ℝ)
    (hpos : target.position ≠ 0) (hdeg : |aim_a target speed| < 1e-3) :
    linear_aim target speed = Except.ok (some (Vec3.new_normalize target.position, 0)) ∧
    (Vec3.new_normalize target.position).norm = 1 :=
  ⟨linear_aim_of_deg target speed hdeg, Vec3.norm_new_normalize _ hpos⟩

/-- Witness for C7 at position (2,0,0), zero velocity, speed 0. -/
theorem linear_aim_near_equal_speed_fallback_witness :
    |aim_a ⟨⟨2, 0, 0⟩, ⟨0, 0, 0⟩⟩ 0| < 1e-3 ∧
    (linear_aim ⟨⟨2, 0, 0⟩, ⟨0, 0, 0⟩⟩ 0 =
        Except.ok (some (Vec3.new_normalize ⟨2, 0, 0⟩, 0)) ∧
      (Vec3.new_normalize (⟨2, 0, 0⟩ : Vec3)).norm = 1) :=
  ⟨by norm_num [aim_a, Vec3.norm_squared, Vec3.dot],
   linear_aim_near_equal_speed_fallback ⟨⟨2, 0, 0⟩, ⟨0, 0, 0⟩⟩ 0
     (fun h => by have := congrArg Vec3.x h; norm_num at this)
     (by norm_num [aim_a, Vec3.norm_squared, Vec3.dot])⟩

/-- C1 (code bug): at position (1,0,0), velocity (3,0,0), speed 1 the quadratic
has real roots -1/4 and -1/2, neither non-negative, and `|a| = 8` is above the
tolerance; the source's `.min_by(..).unwrap()` panics (modelled
`Except.error ()`) instead of returning the no-intercept result. -/
theorem linear_aim_panic_when_no_nonneg_root :
    linear_aim ⟨⟨1, 0, 0⟩, ⟨3, 0, 0⟩⟩ 1 = Except.error () := by
  have hdeg : ¬ |aim_a ⟨⟨1, 0, 0⟩, ⟨3, 0, 0⟩⟩ 1| < 1e-3 := by
    norm_num [aim_a, Vec3.norm_squared, Vec3.dot]
  have hdisc4 : aim_disc ⟨⟨1, 0, 0⟩, ⟨3, 0, 0⟩⟩ 1 = 2 ^ 2 := by
    norm_num [aim_disc, aim_a, aim_b, aim_c, Vec3.norm_squared, Vec3.dot]
  have hsqrt : Real.sqrt (aim_disc ⟨⟨1, 0, 0⟩, ⟨3, 0, 0⟩⟩ 1) = 2 := by
    rw [hdisc4, Real.sqrt_sq (by norm_num : (0:ℝ) ≤ 2)]
  apply linear_aim_of_select_none _ _ hdeg (by rw [hdisc4]; norm_num)
  apply selectRoot_eq_none
  · rw [aim_t0_def, hsqrt]
    norm_num [aim_a, aim_b, Vec3.norm_squared, Vec3.dot]
  · rw [aim_t1_def, hsqrt]
    norm_num [aim_a, aim_b, Vec3.norm_squared, Vec3.dot]

/-- C5: when `|a|` is at least the tolerance, the discriminant is non-negative
and at least one quadratic root is non-negative, `linear_aim` returns the
normalized projected position and a time `t` that is a non-negative root of
`a t² + b t + c = 0` and is minimal among the non-negative roots. -/
theorem linear_aim_selects_smallest_nonneg_root (target : Target) (speed : ℝ)
    (hdeg : (1e-3 : ℝ) ≤ |aim_a target speed|)
    (hdisc : 0 ≤ aim_disc target speed)
    (hroot : 0 ≤ aim_t0 target speed ∨ 0 ≤ aim_t1 target speed) :
    ∃ t, linear_aim target speed =
        Except.ok (some (Vec3.new_normalize (target.position + t • target.velocity), t)) ∧
      0 ≤ t ∧
      aim_a target speed * t ^ 2 + aim_b target * t + aim_c target = 0 ∧
      (∀ u, aim_a target speed * u ^ 2 + aim_b target * u + aim_c target = 0 →
        0 ≤ u → t ≤ u) := by
  have hdeg' : ¬ |aim_a target speed| < 1e-3 := not_lt.mpr hdeg
  have ha : aim_a target speed ≠ 0 := aim_a_ne_zero hdeg'
  obtain ⟨τ, hsel⟩ := selectRoot_some_of_nonneg hroot
  obtain ⟨hmem, hτ0, hle0, hle1⟩ := selectRoot_some_cases hsel
  refine ⟨τ, linear_aim_of_select_some target speed τ hdeg' hdisc hsel, hτ0, ?_, ?_⟩
  · exact (aim_root_iff target speed ha hdisc τ).mpr hmem
  · intro u hu hu0
    rcases (aim_root_iff target speed ha hdisc u).mp hu with h | h
    · subst h
      exact hle0 hu0
    · subst h
      exact hle1 hu0

/-- Witness for C5 at position (0,0,-10), velocity (0,0,1), speed 2:
a = -3, b = -20, c = 100, discriminant 1600, roots -10 and 10/3. -/
theorem linear_aim_selects_smallest_nonneg_root_witness :
    (0 : ℝ) ≤ aim_t1 ⟨⟨0, 0, -10⟩, ⟨0, 0, 1⟩⟩ 2 ∧
    (∃ t, linear_aim ⟨⟨0, 0, -10⟩, ⟨0, 0, 1⟩⟩ 2 =
        Except.ok (some (Vec3.new_normalize
          ((⟨0, 0, -10⟩ : Vec3) + t • (⟨0, 0, 1⟩ : Vec3)), t)) ∧
      0 ≤ t ∧
      aim_a ⟨⟨0, 0, -10⟩, ⟨0, 0, 1⟩⟩ 2 * t ^ 2 +
        aim_b ⟨⟨0, 0, -10⟩, ⟨0, 0, 1⟩⟩ * t + aim_c ⟨⟨0, 0, -10⟩, ⟨0, 0, 1⟩⟩ = 0 ∧
      (∀ u, aim_a ⟨⟨0, 0, -10⟩, ⟨0, 0, 1⟩⟩ 2 * u ^ 2 +
          aim_b ⟨⟨0, 0, -10⟩, ⟨0, 0, 1⟩⟩ * u + aim_c ⟨⟨0, 0, -10⟩, ⟨0, 0, 1⟩⟩ = 0 →
        0 ≤ u → t ≤ u)) := by
  have hsqrt : Real.sqrt (aim_disc ⟨⟨0, 0, -10⟩, ⟨0, 0, 1⟩⟩ 2) = 40 := by
    rw [show aim_disc ⟨⟨0, 0, -10⟩, ⟨0, 0, 1⟩⟩ 2 = 40 ^ 2 by
        norm_num [aim_disc, aim_a, aim_b, aim_c, Vec3.norm_squared, Vec3.dot],
      Real.sqrt_sq (by norm_num : (0:ℝ) ≤ 40)]
  have ht1 : (0 : ℝ) ≤ aim_t1 ⟨⟨0, 0, -10⟩, ⟨0, 0, 1⟩⟩ 2 := by
    rw [aim_t1_def, hsqrt]
    norm_num [aim_a, aim_b, Vec3.norm_squared, Vec3.dot]
  exact ⟨ht1,
    linear_aim_selects_smallest_nonneg_root ⟨⟨0, 0, -10⟩, ⟨0, 0, 1⟩⟩ 2
      (by norm_num [aim_a, Vec3.norm_squared, Vec3.dot])
      (by norm_num [aim_disc, aim_a, aim_b, aim_c, Vec3.norm_squared, Vec3.dot])
      (Or.inr ht1)⟩

/-- C2 (amended): outside the degenerate near-equal-speed branch and for
non-negative speed, a solution returned by `linear_aim` satisfies the
intercept equation exactly: `speed·t·d = position + t·velocity`. -/
theorem linear_aim_intercept_equation (target : Target) (speed : ℝ) (d : Vec3) (t : ℝ)
    (hs : 0 ≤ speed)
    (hdeg : (1e-3 : ℝ) ≤ |aim_a target speed|)
    (h : linear_aim target speed = Except.ok (some (d, t))) :
    (speed * t) • d = target.position + t • target.velocity := by
  rcases linear_aim_ok_some_cases h with ⟨hdeg', _, _⟩ | ⟨_, hdisc, hsel, hd⟩
  · exact absurd hdeg' (not_lt.mpr hdeg)
  · obtain ⟨hmem, ht0, -, -⟩ := selectRoot_some_cases hsel
    have ha : aim_a target speed ≠ 0 := aim_a_ne_zero (not_lt.mpr hdeg)
    have hroot : aim_a target speed * t ^ 2 + aim_b target * t + aim_c target = 0 :=
      (aim_root_iff target speed ha hdisc t).mpr hmem
    have hns : (target.position + t • target.velocity).norm_squared =
        speed ^ 2 * t ^ 2 := by
      rw [aim_quadratic_norm_squared target speed t, hroot]
      ring
    by_cases hz : target.position + t • target.velocity = 0
    · rw [hd, hz]
      apply Vec3.ext_components <;> simp [Vec3.new_normalize, Vec3.sdiv]
    · have hnorm : (target.position + t • target.velocity).norm = speed * t := by
        rw [Vec3.norm, hns, show speed ^ 2 * t ^ 2 = (speed * t) ^ 2 from by ring,
          Real.sqrt_sq (mul_nonneg hs ht0)]
      rw [hd, ← hnorm]
      exact Vec3.norm_smul_new_normalize _ hz

/-- C2 counterexample: at position (3,0,0), velocity (0,4,0), speed 4 the
degenerate branch fires (a = 0) and returns direction (1,0,0) with time 0, but
`speed·t·d = 0` while the target sits at (3,0,0): the intercept equation fails
in the degenerate branch. -/
theorem linear_aim_degenerate_branch_misses :
    linear_aim ⟨⟨3, 0, 0⟩, ⟨0, 4, 0⟩⟩ 4 = Except.ok (some (⟨1, 0, 0⟩, 0)) ∧
    ¬ (((4 : ℝ) * 0) • (⟨1, 0, 0⟩ : Vec3) =
        (⟨3, 0, 0⟩ : Vec3) + (0 : ℝ) • (⟨0, 4, 0⟩ : Vec3)) := by
  constructor
  · rw [linear_aim_of_deg _ _ (by norm_num [aim_a, Vec3.norm_squared, Vec3.dot])]
    have hn : Vec3.norm ⟨3, 0, 0⟩ = 3 := by
      rw [Vec3.norm, show Vec3.norm_squared ⟨3, 0, 0⟩ = 3 ^ 2 from by
          norm_num [Vec3.norm_squared, Vec3.dot],
        Real.sqrt_sq (by norm_num : (0:ℝ) ≤ 3)]
    have hnn : Vec3.new_normalize ⟨3, 0, 0⟩ = ⟨1, 0, 0⟩ := by
      apply Vec3.ext_components <;> simp only [Vec3.new_normalize, Vec3.sdiv, hn] <;>
        norm_num
    rw [hnn]
  · intro h
    have hx := congrArg Vec3.x h
    simp at hx

/-- Witness for C2 at position (1,0,0), velocity (-2,0,0), speed 1: the
selected root is 1/3 and the returned direction is (1,0,0). -/
theorem linear_aim_intercept_equation_witness :
    linear_aim ⟨⟨1, 0, 0⟩, ⟨-2, 0, 0⟩⟩ 1 = Except.ok (some (⟨1, 0, 0⟩, 1/3)) ∧
    ((1 : ℝ) * (1/3)) • (⟨1, 0, 0⟩ : Vec3) =
      (⟨1, 0, 0⟩ : Vec3) + ((1/3 : ℝ)) • (⟨-2, 0, 0⟩ : Vec3) := by
  have hdeg : ¬ |aim_a ⟨⟨1, 0, 0⟩, ⟨-2, 0, 0⟩⟩ 1| < 1e-3 := by
    norm_num [aim_a, Vec3.norm_squared, Vec3.dot]
  have hsqrt : Real.sqrt (aim_disc ⟨⟨1, 0, 0⟩, ⟨-2, 0, 0⟩⟩ 1) = 2 := by
    rw [show aim_disc ⟨⟨1, 0, 0⟩, ⟨-2, 0, 0⟩⟩ 1 = 2 ^ 2 from by
        norm_num [aim_disc, aim_a, aim_b, aim_c, Vec3.norm_squared, Vec3.dot],
      Real.sqrt_sq (by norm_num : (0:ℝ) ≤ 2)]
  have ht0 : aim_t0 ⟨⟨1, 0, 0⟩, ⟨-2, 0, 0⟩⟩ 1 = 1 := by
    rw [aim_t0_def, hsqrt]
    norm_num [aim_a, aim_b, Vec3.norm_squared, Vec3.dot]
  have ht1 : aim_t1 ⟨⟨1, 0, 0⟩, ⟨-2, 0, 0⟩⟩ 1 = 1/3 := by
    rw [aim_t1_def, hsqrt]
    norm_num [aim_a, aim_b, Vec3.norm_squared, Vec3.dot]
  have hsel : selectRoot (aim_t0 ⟨⟨1, 0, 0⟩, ⟨-2, 0, 0⟩⟩ 1)
      (aim_t1 ⟨⟨1, 0, 0⟩, ⟨-2, 0, 0⟩⟩ 1) = some (1/3) := by
    rw [ht0, ht1]
    norm_num [selectRoot, min_def]
  have hvec : (⟨1, 0, 0⟩ : Vec3) + ((1/3 : ℝ)) • (⟨-2, 0, 0⟩ : Vec3) = ⟨1/3, 0, 0⟩ := by
    apply Vec3.ext_components <;> norm_num
  have hn : Vec3.norm ⟨1/3, 0, 0⟩ = 1/3 := by
    rw [Vec3.norm, show Vec3.norm_squared ⟨1/3, 0, 0⟩ = (1/3 : ℝ) ^ 2 from by
        norm_num [Vec3.norm_squared, Vec3.dot],
      Real.sqrt_sq (by norm_num : (0:ℝ) ≤ 1/3)]
  have hnn : Vec3.new_normalize ⟨1/3, 0, 0⟩ = ⟨1, 0, 0⟩ := by
    apply Vec3.ext_components <;> simp only [Vec3.new_normalize, Vec3.sdiv, hn] <;>
      norm_num
  have h : linear_aim ⟨⟨1, 0, 0⟩, ⟨-2, 0, 0⟩⟩ 1 = Except.ok (some (⟨1, 0, 0⟩, 1/3)) := by
    rw [linear_aim_of_select_some _ _ (1/3) hdeg (by
        norm_num [aim_disc, aim_a, aim_b, aim_c, Vec3.norm_squared, Vec3.dot]) hsel,
      hvec, hnn]
  exact ⟨h, linear_aim_intercept_equation ⟨⟨1, 0, 0⟩, ⟨-2, 0, 0⟩⟩ 1 ⟨1, 0, 0⟩ (1/3)
    (by norm_num) (by norm_num [aim_a, Vec3.norm_squared, Vec3.dot]) h⟩

/-- C9: `linear_steer` is exactly `linear_aim` on the target with
`current_velocity` added to its velocity, with a returned direction rescaled
by the current speed and turned into a velocity delta; the `None` (and panic)
outcomes propagate unchanged. -/
theorem linear_steer_is_aim_transform (target : Target) (current_velocity : Vec3)
    (average_speed : ℝ) :
    linear_steer target current_velocity average_speed =
      Except.map (Option.map (fun dt =>
          (current_velocity.norm • dt.1 - current_velocity, dt.2)))
        (linear_aim ⟨target.position, target.velocity + current_velocity⟩ average_speed) := by
  simp only [linear_steer]
  cases linear_aim ⟨target.position, target.velocity + current_velocity⟩ average_speed with
  | error e => rfl
  | ok o =>
    cases o with
    | none => rfl
    | some dt =>
      obtain ⟨d, t⟩ := dt
      rfl

/-- C10 (amended): for a target with nonzero position and nonzero average
speed, a returned steering correction preserves the projectile's speed:
`|current_velocity + delta| = |current_velocity|` exactly over ℝ. -/
theorem linear_steer_preserves_speed (target : Target) (current_velocity : Vec3)
    (average_speed : ℝ) (delta : Vec3) (t : ℝ)
    (hpos : target.position ≠ 0) (hs : average_speed ≠ 0)
    (h : linear_steer target current_velocity average_speed =
      Except.ok (some (delta, t))) :
    (current_velocity + delta).norm = current_velocity.norm := by
  simp only [linear_steer] at h
  cases hla : linear_aim ⟨target.position, target.velocity + current_velocity⟩
      average_speed with
  | error e =>
    rw [hla] at h
    simp at h
  | ok o =>
    cases o with
    | none =>
      rw [hla] at h
      simp at h
    | some dt =>
      obtain ⟨d, τ⟩ := dt
      rw [hla] at h
      simp only [Except.ok.injEq, Option.some.injEq, Prod.mk.injEq] at h
      obtain ⟨hdelta, hτ⟩ := h
      have hsum : current_velocity + delta = current_velocity.norm • d := by
        rw [← hdelta]
        apply Vec3.ext_components <;>
          simp only [Vec3.add_x, Vec3.add_y, Vec3.add_z, Vec3.sub_x, Vec3.sub_y,
            Vec3.sub_z, Vec3.smul_x, Vec3.smul_y, Vec3.smul_z] <;>
          ring
      set adj : Target := ⟨target.position, target.velocity + current_velocity⟩ with hadj
      have hd1 : d.norm = 1 := by
        rcases linear_aim_ok_some_cases hla with ⟨-, hd, -⟩ | ⟨hdeg, hdisc, hsel, hd⟩
        · rw [hd]
          exact Vec3.norm_new_normalize _ hpos
        · obtain ⟨hmem, ht0, -, -⟩ := selectRoot_some_cases hsel
          have ha : aim_a adj average_speed ≠ 0 := aim_a_ne_zero hdeg
          have hroot := (aim_root_iff adj average_speed ha hdisc τ).mpr hmem
          have hns : (adj.position + τ • adj.velocity).norm_squared =
              average_speed ^ 2 * τ ^ 2 := by
            rw [aim_quadratic_norm_squared adj average_speed τ, hroot]
            ring
          have hτne : τ ≠ 0 := by
            intro h0
            rw [h0] at hroot
            have hc : aim_c adj = 0 := by
              have := hroot
              simpa using this
            rw [aim_c] at hc
            exact hpos ((Vec3.norm_squared_eq_zero_iff _).mp hc)
          have hzne : adj.position + τ • adj.velocity ≠ 0 := by
            intro hz
            have h0 : average_speed ^ 2 * τ ^ 2 = 0 := by
              rw [← hns, hz]
              simp [Vec3.norm_squared, Vec3.dot]
            rcases mul_eq_zero.mp h0 with h1 | h1
            · exact hs (sq_eq_zero_iff.mp h1)
            · exact hτne (sq_eq_zero_iff.mp h1)
          rw [hd]
          exact Vec3.norm_new_normalize _ hzne
      rw [hsum, Vec3.norm_smul, hd1, mul_one, abs_of_nonneg (Vec3.norm_nonneg _)]

/-- C10 counterexample: with the target exactly at the origin and zero relative
velocity, `linear_steer ((0,0,0),(0,0,0)) (1,0,0) 1` returns the correction
(-1,0,0) with time 0, and applying it drops the projectile's speed from 1 to
0: the speed-preservation property fails as stated. -/
theorem linear_steer_zero_position_speed_lost :
    linear_steer ⟨⟨0, 0, 0⟩, ⟨0, 0, 0⟩⟩ ⟨1, 0, 0⟩ 1 =
      Except.ok (some (⟨-1, 0, 0⟩, 0)) ∧
    Vec3.norm ((⟨1, 0, 0⟩ : Vec3) + ⟨-1, 0, 0⟩) ≠ Vec3.norm (⟨1, 0, 0⟩ : Vec3) := by
  have hadd : (⟨0, 0, 0⟩ : Vec3) + ⟨1, 0, 0⟩ = ⟨1, 0, 0⟩ := by
    apply Vec3.ext_components <;> norm_num
  have hn1 : Vec3.norm ⟨1, 0, 0⟩ = 1 := by
    rw [Vec3.norm, show Vec3.norm_squared ⟨1, 0, 0⟩ = 1 ^ 2 from by
        norm_num [Vec3.norm_squared, Vec3.dot],
      Real.sqrt_sq (by norm_num : (0:ℝ) ≤ 1)]
  have hnn0 : Vec3.new_normalize ⟨0, 0, 0⟩ = ⟨0, 0, 0⟩ := by
    apply Vec3.ext_components <;> simp [Vec3.new_normalize, Vec3.sdiv]
  have hla : linear_aim ⟨⟨0, 0, 0⟩, ⟨1, 0, 0⟩⟩ 1 =
      Except.ok (some (Vec3.new_normalize ⟨0, 0, 0⟩, 0)) :=
    linear_aim_of_deg _ _ (by norm_num [aim_a, Vec3.norm_squared, Vec3.dot])
  constructor
  · simp only [linear_steer, hadd, hla, hnn0, hn1]
    apply congrArg
    apply congrArg
    apply Prod.ext <;> simp
    apply Vec3.ext_components <;> norm_num
  · rw [show (⟨1, 0, 0⟩ : Vec3) + ⟨-1, 0, 0⟩ = ⟨0, 0, 0⟩ from by
        apply Vec3.ext_components <;> norm_num,
      hn1]
    rw [Vec3.norm, show Vec3.norm_squared ⟨0, 0, 0⟩ = 0 from by
        norm_num [Vec3.norm_squared, Vec3.dot],
      Real.sqrt_zero]
    norm_num

/-- Witness for C10 at position (1,0,0), zero target velocity, current
velocity (0,0,3), average speed 3: the correction is (3,0,-3) and the speed
stays 3. -/
theorem linear_steer_preserves_speed_witness :
    linear_steer ⟨⟨1, 0, 0⟩, ⟨0, 0, 0⟩⟩ ⟨0, 0, 3⟩ 3 =
      Except.ok (some (⟨3, 0, -3⟩, 0)) ∧
    Vec3.norm ((⟨0, 0, 3⟩ : Vec3) + ⟨3, 0, -3⟩) = Vec3.norm (⟨0, 0, 3⟩ : Vec3) := by
  have hadd : (⟨0, 0, 0⟩ : Vec3) + ⟨0, 0, 3⟩ = ⟨0, 0, 3⟩ := by
    apply Vec3.ext_components <;> norm_num
  have hn1 : Vec3.norm ⟨1, 0, 0⟩ = 1 := by
    rw [Vec3.norm, show Vec3.norm_squared ⟨1, 0, 0⟩ = 1 ^ 2 from by
        norm_num [Vec3.norm_squared, Vec3.dot],
      Real.sqrt_sq (by norm_num : (0:ℝ) ≤ 1)]
  have hn3 : Vec3.norm ⟨0, 0, 3⟩ = 3 := by
    rw [Vec3.norm, show Vec3.norm_squared ⟨0, 0, 3⟩ = 3 ^ 2 from by
        norm_num [Vec3.norm_squared, Vec3.dot],
      Real.sqrt_sq (by norm_num : (0:ℝ) ≤ 3)]
  have hnn : Vec3.new_normalize ⟨1, 0, 0⟩ = ⟨1, 0, 0⟩ := by
    apply Vec3.ext_components <;> simp only [Vec3.new_normalize, Vec3.sdiv, hn1] <;>
      norm_num
  have hla : linear_aim ⟨⟨1, 0, 0⟩, ⟨0, 0, 3⟩⟩ 3 =
      Except.ok (some ((⟨1, 0, 0⟩ : Vec3), 0)) := by
    rw [linear_aim_of_deg _ _ (by norm_num [aim_a, Vec3.norm_squared, Vec3.dot]), hnn]
  have hsteer : linear_steer ⟨⟨1, 0, 0⟩, ⟨0, 0, 0⟩⟩ ⟨0, 0, 3⟩ 3 =
      Except.ok (some (⟨3, 0, -3⟩, 0)) := by
    simp only [linear_steer, hadd, hla, hn3]
    apply congrArg
    apply congrArg
    apply Prod.ext <;> simp
    apply Vec3.ext_components <;> norm_num
  exact ⟨hsteer,
    linear_steer_preserves_speed ⟨⟨1, 0, 0⟩, ⟨0, 0, 0⟩⟩ ⟨0, 0, 3⟩ 3 ⟨3, 0, -3⟩ 0
      (fun h => by have := congrArg Vec3.x h; norm_num at this)
      (by norm_num) hsteer⟩

/-- Witness for C8 at position (0,-1,-10), velocity (0,1,1/10), gain 3. -/
theorem ipn_eq_gain_smul_cross_witness :
    (Vec3.dot ⟨0, -1, -10⟩ ⟨0, 1, 1/10⟩ < 0) ∧
    ipn 3 ⟨⟨0, -1, -10⟩, ⟨0, 1, 1/10⟩⟩ =
      (3 : ℝ) • (Vec3.cross ⟨0, 1, 1/10⟩
        ((Vec3.cross ⟨0, -1, -10⟩ ⟨0, 1, 1/10⟩).sdiv
          (Vec3.norm_squared ⟨0, -1, -10⟩))) :=
  ⟨by norm_num [Vec3.dot],
   ipn_eq_gain_smul_cross 3 ⟨⟨0, -1, -10⟩, ⟨0, 1, 1/10⟩⟩ (by norm_num [Vec3.dot])
     (fun h => by have := congrArg Vec3.z h; norm_num at this)⟩
